import Mathlib

/-!
Verification development for the LTN grounding tutorial
(`src/grounding.ipynb`).

The notebook is a thin client of the `logictensornetworks_wrapper`
grounding engine, whose own code is not part of this repository.
Following the specification (spec.md §3-§4), the engine is modelled here:
symbol table, formula parser, axis-binding compiler, Łukasiewicz t-norm
connectives and p-mean quantifier aggregators.  Wherever the notebook
records concrete inputs or outputs (registered constants, evaluated
satisfaction values, tensor shapes), those recorded values are transcribed
below and the model is checked against them.

Scalars are kept polymorphic over a `LinearOrderedField` so that the
engine is executable over `ℚ` (all decidable checks) while the
real-exponent aggregators live over `ℝ`.
-/

/-- Errors of the grounding engine, from spec.md §7.  Modelled from the
spec: the wrapper's error taxonomy is not in `src/`. -/
inductive LtnError where
  | parseError
  | unknownSymbol (name : String)
  | arityMismatch (name : String) (expected got : Nat)
  | unboundVariable (name : String)
  deriving DecidableEq, Repr

/-- Kind of a registered symbol as recorded in the symbol table:
constant, variable, function with its arity, or predicate with its
arity.  Modelled from the spec (spec.md §3, §4.1): the wrapper's symbol
registry is not in `src/`. -/
inductive Kind where
  | constK
  | varK
  | funcK (arity : Nat)
  | predK (arity : Nat)
  deriving DecidableEq, Repr

/-- Symbol table: a lookup from names to registered kinds
(spec.md §4.1 `lookup`). -/
structure SymTable where
  kindOf : String → Option Kind

/-- Symbol table of the notebook session: constants `c`, `d`
(cell 4), binary function `f` (cell 8, `f : ℝ²×ℝ² → ℝ²`, so arity 2),
unary predicate `P` (cell 12, `P : ℝ² → [0,1]`, so arity 1) and
variables `?x`, `?y` (cell 23). -/
def notebookTable : SymTable :=
  ⟨fun s =>
    if s = "c" ∨ s = "d" then some .constK
    else if s = "?x" ∨ s = "?y" then some .varK
    else if s = "f" then some (.funcK 2)
    else if s = "P" then some (.predK 1)
    else none⟩

mutual
/-- AST of terms (spec.md §3): constant references, variable references
and function applications with an ordered, nonempty argument list
(the grammar `term ("," term)*` requires at least one argument). -/
inductive Term where
  | const (name : String)
  | var (name : String)
  | app (name : String) (args : TermArgs)
  deriving Repr, DecidableEq
/-- Nonempty ordered argument list of a function or predicate
application. -/
inductive TermArgs where
  | single (t : Term)
  | cons (t : Term) (rest : TermArgs)
  deriving Repr, DecidableEq
end

/-- Number of arguments in an argument list. -/
def TermArgs.len : TermArgs → Nat
  | .single _ => 1
  | .cons _ rest => 1 + rest.len

/-- Concatenation of argument lists. -/
def TermArgs.append : TermArgs → TermArgs → TermArgs
  | .single t, b => .cons t b
  | .cons t r, b => .cons t (r.append b)

/-- AST of formulas (spec.md §3): predicate applications, the four
connectives and the two quantifiers. -/
inductive Formula where
  | pred (name : String) (args : TermArgs)
  | not (f : Formula)
  | and (f g : Formula)
  | or (f g : Formula)
  | imp (f g : Formula)
  | forallF (v : String) (f : Formula)
  | existsF (v : String) (f : Formula)
  deriving Repr, DecidableEq

/-- Tokens of the formula language (spec.md §4.2, §6): identifiers
(including `?`-prefixed variables and the quantifier keywords),
parentheses, comma, colon, `~`, `&`, `|` and `->`. -/
inductive Tok where
  | ident (s : String)
  | lpar | rpar | comma | colon | tilde | amp | bar | arrow
  deriving DecidableEq, Repr

/-- Longest prefix of identifier characters (letters, digits, `_`),
returned together with the rest of the input. -/
def takeIdentAux : List Char → (List Char × List Char)
  | [] => ([], [])
  | c :: cs =>
    if c.isAlphanum ∨ c = '_' then
      let (a, b) := takeIdentAux cs
      (c :: a, b)
    else ([], c :: cs)

/-- Tokenizer for formula strings, fuelled by the input length.
Modelled from the spec (spec.md §4.2, §6): the wrapper's lexer is not in
`src/`.  Identifiers may start with `?` (variables) or a letter; `->` is
the implication token; malformed characters are `ParseError`s. -/
def tokenize : Nat → List Char → Except LtnError (List Tok)
  | 0, _ => .error .parseError
  | _ + 1, [] => .ok []
  | fuel + 1, c :: cs =>
    if c = ' ' then tokenize fuel cs
    else if c = '(' then (tokenize fuel cs).map (Tok.lpar :: ·)
    else if c = ')' then (tokenize fuel cs).map (Tok.rpar :: ·)
    else if c = ',' then (tokenize fuel cs).map (Tok.comma :: ·)
    else if c = ':' then (tokenize fuel cs).map (Tok.colon :: ·)
    else if c = '~' then (tokenize fuel cs).map (Tok.tilde :: ·)
    else if c = '&' then (tokenize fuel cs).map (Tok.amp :: ·)
    else if c = '|' then (tokenize fuel cs).map (Tok.bar :: ·)
    else if c = '-' then
      match cs with
      | '>' :: cs2 => (tokenize fuel cs2).map (Tok.arrow :: ·)
      | _ => .error .parseError
    else if c = '?' ∨ c.isAlpha then
      let (a, b) := takeIdentAux cs
      (tokenize fuel b).map (Tok.ident (String.mk (c :: a)) :: ·)
    else .error .parseError

/-- Term parser, fuelled.  Modelled from the spec (spec.md §4.2 grammar
rules `term` and the argument list of `predicate_app`): the wrapper's
parser is not in `src/`.  In mode `false` it parses one term; in mode
`true` it parses `term ("," term)* ")"`, the tail of an argument list.
Identifiers are resolved against the symbol table while parsing; a
function applied to a number of arguments different from its declared
arity is an `ArityMismatchError`, raised before any AST node for the
application is built. -/
def parseTermAux (tbl : SymTable) : Nat → Bool → List Tok →
    Except LtnError (TermArgs × List Tok)
  | 0, _, _ => .error .parseError
  | fuel + 1, false, toks =>
    match toks with
    | .ident s :: rest =>
      match tbl.kindOf s with
      | some (.funcK a) =>
        match rest with
        | .lpar :: rest2 =>
          match parseTermAux tbl fuel true rest2 with
          | .ok (args, rest3) =>
            if args.len = a then .ok (.single (Term.app s args), rest3)
            else .error (.arityMismatch s a args.len)
          | .error e => .error e
        | _ => .error .parseError
      | some .constK => .ok (.single (Term.const s), rest)
      | some .varK => .ok (.single (Term.var s), rest)
      | some (.predK _) => .error .parseError
      | none => .error (.unknownSymbol s)
    | _ => .error .parseError
  | fuel + 1, true, toks =>
    match parseTermAux tbl fuel false toks with
    | .ok (ts, rest) =>
      match rest with
      | .comma :: rest2 =>
        match parseTermAux tbl fuel true rest2 with
        | .ok (ts2, rest3) => .ok (ts.append ts2, rest3)
        | .error e => .error e
      | .rpar :: rest2 => .ok (ts, rest2)
      | _ => .error .parseError
    | .error e => .error e

/-- Formula parser, fuelled, by precedence level.  Modelled from the
spec (spec.md §4.2 grammar): the wrapper's parser is not in `src/`.
Levels: 0 = formula (quantified or implication), 1 = implication,
2 = disjunction, 3 = conjunction, 4 = negation, 5 = atom.  At levels 2
and 3 the `acc` argument carries the left operand accumulated so far, so
`&` and `|` associate to the left as in the grammar.  Predicate
applications are checked against the declared arity while parsing and
fail with `ArityMismatchError` before any AST node for the application
is built. -/
def parseFormulaAux (tbl : SymTable) : Nat → Nat → Option Formula → List Tok →
    Except LtnError (Formula × List Tok)
  | 0, _, _, _ => .error .parseError
  | fuel + 1, 0, _, toks =>
    match toks with
    | .ident q :: .ident v :: .colon :: rest =>
      if q = "forall" ∨ q = "exists" then
        match tbl.kindOf v with
        | some .varK =>
          match parseFormulaAux tbl fuel 0 none rest with
          | .ok (f, r) =>
            .ok (if q = "forall" then Formula.forallF v f else Formula.existsF v f, r)
          | .error e => .error e
        | some _ => .error .parseError
        | none => .error (.unknownSymbol v)
      else parseFormulaAux tbl fuel 1 none toks
    | _ => parseFormulaAux tbl fuel 1 none toks
  | fuel + 1, 1, _, toks =>
    match parseFormulaAux tbl fuel 2 none toks with
    | .ok (f, r) =>
      match r with
      | .arrow :: r2 =>
        match parseFormulaAux tbl fuel 2 none r2 with
        | .ok (g, r3) => .ok (Formula.imp f g, r3)
        | .error e => .error e
      | _ => .ok (f, r)
    | .error e => .error e
  | fuel + 1, 2, none, toks =>
    match parseFormulaAux tbl fuel 3 none toks with
    | .ok (f, r) => parseFormulaAux tbl fuel 2 (some f) r
    | .error e => .error e
  | fuel + 1, 2, some f, toks =>
    match toks with
    | .bar :: r2 =>
      match parseFormulaAux tbl fuel 3 none r2 with
      | .ok (g, r3) => parseFormulaAux tbl fuel 2 (some (Formula.or f g)) r3
      | .error e => .error e
    | _ => .ok (f, toks)
  | fuel + 1, 3, none, toks =>
    match parseFormulaAux tbl fuel 4 none toks with
    | .ok (f, r) => parseFormulaAux tbl fuel 3 (some f) r
    | .error e => .error e
  | fuel + 1, 3, some f, toks =>
    match toks with
    | .amp :: r2 =>
      match parseFormulaAux tbl fuel 4 none r2 with
      | .ok (g, r3) => parseFormulaAux tbl fuel 3 (some (Formula.and f g)) r3
      | .error e => .error e
    | _ => .ok (f, toks)
  | fuel + 1, 4, _, toks =>
    match toks with
    | .tilde :: r =>
      match parseFormulaAux tbl fuel 5 none r with
      | .ok (f, r2) => .ok (Formula.not f, r2)
      | .error e => .error e
    | _ => parseFormulaAux tbl fuel 5 none toks
  | fuel + 1, 5, _, toks =>
    match toks with
    | .lpar :: r =>
      match parseFormulaAux tbl fuel 0 none r with
      | .ok (f, r2) =>
        match r2 with
        | .rpar :: r3 => .ok (f, r3)
        | _ => .error .parseError
      | .error e => .error e
    | .ident s :: r =>
      match tbl.kindOf s with
      | some (.predK a) =>
        match r with
        | .lpar :: r2 =>
          match parseTermAux tbl fuel true r2 with
          | .ok (args, r3) =>
            if args.len = a then .ok (Formula.pred s args, r3)
            else .error (.arityMismatch s a args.len)
          | .error e => .error e
        | _ => .error .parseError
      | some _ => .error .parseError
      | none => .error (.unknownSymbol s)
    | _ => .error .parseError
  | _ + 1, _ + 6, _, _ => .error .parseError

/-- Parse a formula string against a symbol table (spec.md §6
`parse(formula_string) -> AST`).  Fails fast: on any error no AST is
returned at all. -/
def parse (tbl : SymTable) (s : String) : Except LtnError Formula :=
  match tokenize (s.toList.length + 1) s.toList with
  | .error e => .error e
  | .ok toks =>
    match parseFormulaAux tbl (8 * toks.length + 8) 0 none toks with
    | .ok (f, []) => .ok f
    | .ok (_, _ :: _) => .error .parseError
    | .error e => .error e

/-- Parse a term string (the notebook's `ltnw.term`, cell 10). -/
def parseTermStr (tbl : SymTable) (s : String) : Except LtnError Term :=
  match tokenize (s.toList.length + 1) s.toList with
  | .error e => .error e
  | .ok toks =>
    match parseTermAux tbl (8 * toks.length + 8) false toks with
    | .ok (.single t, []) => .ok t
    | .ok (_, _) => .error .parseError
    | .error e => .error e

/-- Insert a variable name at the end of an axis binding unless already
present: bindings record free variables in order of first appearance
(spec.md §3 "Axis Binding"). -/
def insertVar (l : List String) (v : String) : List String :=
  if v ∈ l then l else l ++ [v]

/-- Union of two axis bindings, aligned by variable-name label, keeping
the left binding's order and appending the right binding's new names in
their order of first appearance (spec.md §4.3). -/
def mergeVars (a b : List String) : List String :=
  b.foldl insertVar a

/-- Deduplicate a list of variable occurrences keeping the first
occurrence of each name. -/
def dedupFirst (l : List String) : List String :=
  l.foldl insertVar []

mutual
/-- Variable occurrences of a term, left to right.  Modelled from the
spec (spec.md §4.3): constants contribute nothing, a variable reference
contributes itself, applications contribute their arguments'
occurrences left to right. -/
def termOcc : Term → List String
  | .const _ => []
  | .var v => [v]
  | .app _ args => argsOcc args
/-- Variable occurrences of an argument list, left to right. -/
def argsOcc : TermArgs → List String
  | .single t => termOcc t
  | .cons t rest => termOcc t ++ argsOcc rest
end

/-- Axis binding of an argument list: the union of the arguments' free
variables in order of first appearance across arguments, left to right
(spec.md §4.3, FunctionApplication / PredicateApplication rule). -/
def argsBinding (args : TermArgs) : List String :=
  dedupFirst (argsOcc args)

/-- Axis-binding compiler (spec.md §4.3): computes the ordered list of
free-variable names of a formula, in order of first appearance; a
quantifier over a variable absent from its body's binding is an
`UnboundVariableError`.  Modelled from the spec: the wrapper's grounding
compiler is not in `src/`. -/
def compileBinding : Formula → Except LtnError (List String)
  | .pred _ args => .ok (argsBinding args)
  | .not f => compileBinding f
  | .and f g =>
    match compileBinding f, compileBinding g with
    | .ok a, .ok b => .ok (mergeVars a b)
    | .error e, _ => .error e
    | _, .error e => .error e
  | .or f g =>
    match compileBinding f, compileBinding g with
    | .ok a, .ok b => .ok (mergeVars a b)
    | .error e, _ => .error e
    | _, .error e => .error e
  | .imp f g =>
    match compileBinding f, compileBinding g with
    | .ok a, .ok b => .ok (mergeVars a b)
    | .error e, _ => .error e
    | _, .error e => .error e
  | .forallF v f =>
    match compileBinding f with
    | .ok b => if v ∈ b then .ok (b.erase v) else .error (.unboundVariable v)
    | .error e => .error e
  | .existsF v f =>
    match compileBinding f with
    | .ok b => if v ∈ b then .ok (b.erase v) else .error (.unboundVariable v)
    | .error e => .error e

/-- Interpretation of the registered symbols: the groundings of
constants (fixed vectors), variables (current sample feeds), functions
and predicates (opaque externally-supplied mappings, spec.md §3), and
the two quantifier aggregators (selectable strategy, spec.md §4.5). -/
structure Interp (α : Type) where
  constVal : String → List α
  varFeed : String → List (List α)
  funMap : String → List (List α) → List α
  predMap : String → List (List α) → α
  aggAll : List α → α
  aggEx : List α → α

/-- Łukasiewicz conjunction `max(a+b-1,0)`.  This is the connective
family the notebook's recorded outputs exhibit (cells 19-21); spec.md
§4.4 lists it as a selectable family. -/
def lukAnd {α : Type} [LinearOrderedField α] (a b : α) : α :=
  max (a + b - 1) 0

/-- Łukasiewicz disjunction `min(a+b,1)` (notebook cell 20). -/
def lukOr {α : Type} [LinearOrderedField α] (a b : α) : α :=
  min (a + b) 1

/-- Łukasiewicz residuum `clip(1-a+b,0,1)`, one of the two residua
documented in spec.md §4.4; it is the one the notebook's recorded
output exhibits (cell 21). -/
def lukImp {α : Type} [LinearOrderedField α] (a b : α) : α :=
  min (max (1 - a + b) 0) 1

/-- Goguen residuum `1 if a ≤ b else 1 - a + a·b`, the other residuum
documented in spec.md §4.4; defined here only to compare against the
notebook's recorded output. -/
def gogImp {α : Type} [LinearOrderedField α] (a b : α) : α :=
  if a ≤ b then 1 else 1 - a + a * b

/-- Product-t-norm conjunction `a·b` (spec.md §4.4 claimed default);
defined here only to compare against the notebook's recorded outputs. -/
def prodAnd {α : Type} [LinearOrderedField α] (a b : α) : α := a * b

/-- Product-t-norm disjunction `a + b - a·b` (spec.md §4.4 claimed
default); defined here only to compare against the notebook's recorded
outputs. -/
def prodOr {α : Type} [LinearOrderedField α] (a b : α) : α := a + b - a * b

/-- Environment update: assign sample index `i` to variable `v`. -/
def updEnv (σ : String → Nat) (v : String) (i : Nat) : String → Nat :=
  fun w => if w = v then i else σ w

mutual
/-- Term evaluation under a sample-index environment.  A constant
reference returns the registered vector, a variable reference returns
the sample selected by the environment, an application applies the
registered opaque mapping to the evaluated arguments (spec.md §4.3).
Modelled from the spec: the wrapper's evaluator is not in `src/`. -/
def evalTerm {α : Type} (I : Interp α) (σ : String → Nat) : Term → List α
  | .const n => I.constVal n
  | .var n => (I.varFeed n).getD (σ n) []
  | .app n args => I.funMap n (evalArgs I σ args)
/-- Evaluation of an argument list, left to right. -/
def evalArgs {α : Type} (I : Interp α) (σ : String → Nat) :
    TermArgs → List (List α)
  | .single t => [evalTerm I σ t]
  | .cons t rest => evalTerm I σ t :: evalArgs I σ rest
end

/-- Formula evaluation under a sample-index environment: the labelled
tensor denotationally, as the function from index assignments of the
free variables to satisfaction values.  Connectives act pointwise
(label-aligned by construction: both operands read the same
environment); quantifiers aggregate the body's values over all sample
indices of the bound variable (spec.md §4.3, §4.5).  Modelled from the
spec: the wrapper's evaluator is not in `src/`; the connective family is
the one the notebook's recorded outputs exhibit (Łukasiewicz,
cells 18-21). -/
def evalFormula {α : Type} [LinearOrderedField α] (I : Interp α) :
    Formula → (String → Nat) → α
  | .pred n args, σ => I.predMap n (evalArgs I σ args)
  | .not f, σ => 1 - evalFormula I f σ
  | .and f g, σ => lukAnd (evalFormula I f σ) (evalFormula I g σ)
  | .or f g, σ => lukOr (evalFormula I f σ) (evalFormula I g σ)
  | .imp f g, σ => lukImp (evalFormula I f σ) (evalFormula I g σ)
  | .forallF v f, σ =>
    I.aggAll ((List.range (I.varFeed v).length).map
      (fun i => evalFormula I f (updEnv σ v i)))
  | .existsF v f, σ =>
    I.aggEx ((List.range (I.varFeed v).length).map
      (fun i => evalFormula I f (updEnv σ v i)))

/-- Axis binding of a formula string: parse, then compile
(spec.md §6 Query API). -/
def askBinding (tbl : SymTable) (s : String) : Except LtnError (List String) :=
  match parse tbl s with
  | .ok f => compileBinding f
  | .error e => .error e

/-- Shape of the result tensor of `ask`: one leading axis per free
variable in binding order, sized by the variable's current sample
count, plus the trailing value axis (of size 1: the notebook's
predicates produce one truth degree per sample, recorded shapes in
cells 25, 27, 28). -/
def askShape {α : Type} (tbl : SymTable) (I : Interp α) (s : String) :
    Except LtnError (List Nat) :=
  match askBinding tbl s with
  | .ok b => .ok (b.map (fun v => (I.varFeed v).length) ++ [1])
  | .error e => .error e

/-- Result of `ask` as a labelled tensor: the function assigning to
each index environment the satisfaction value (spec.md §6). -/
def askFun {α : Type} [LinearOrderedField α] (tbl : SymTable) (I : Interp α)
    (s : String) : Except LtnError ((String → Nat) → α) :=
  match parse tbl s with
  | .ok f =>
    match compileBinding f with
    | .ok _ => .ok (evalFormula I f)
    | .error e => .error e
  | .error e => .error e

/-- Result of `ask` for a fully ground formula: the single satisfaction
value (every environment gives the same value because no free variable
remains). -/
def askVal0 {α : Type} [LinearOrderedField α] (tbl : SymTable) (I : Interp α)
    (s : String) : Except LtnError α :=
  match askFun tbl I s with
  | .ok g => .ok (g (fun _ => 0))
  | .error e => .error e

/-- Value of a term string for a ground term (the notebook's
`ltnw.term(...).eval()`, cell 10, and `ltnw.constant(name)` query,
cell 6). -/
def termVal0 {α : Type} (tbl : SymTable) (I : Interp α) (s : String) :
    Except LtnError (List α) :=
  match parseTermStr tbl s with
  | .ok t => .ok (evalTerm I (fun _ => 0) t)
  | .error e => .error e

/-- Elementwise vector subtraction, the numeric backend operation behind
the notebook's `lambda x,y: x-y` (cell 8) and `tf.subtract(x,mu)`
(cell 12). -/
def vsub {α : Type} [LinearOrderedField α] (x y : List α) : List α :=
  List.zipWith (· - ·) x y

/-- Registered grounding of the constant `c` (notebook cell 4:
`ltnw.constant("c",[2.1,3.])`). -/
def cVec {α : Type} [LinearOrderedField α] : List α := [21 / 10, 3]

/-- Registered grounding of the constant `d` (notebook cell 4:
`ltnw.constant("d",[3.4,1.5])`). -/
def dVec {α : Type} [LinearOrderedField α] : List α := [17 / 5, 3 / 2]

/-- The point `μ = ⟨2,3⟩` of the notebook's predicate definition
(cell 12: `mu=tf.constant([2.,3.])`). -/
def muVec {α : Type} [LinearOrderedField α] : List α := [2, 3]

/-- Direct computation of the notebook's predicate
`P(x) = exp(-‖x-μ‖)` (cell 12), with the backend's `exp` and norm as
opaque parameters (spec.md treats the numeric backend as an external
collaborator). -/
def Pdirect {α : Type} [LinearOrderedField α] (pexp : α → α) (nrm : List α → α)
    (x : List α) : α :=
  pexp (-nrm (vsub x muVec))

/-- Interpretation of the notebook session's registered symbols:
constants `c`, `d` (cell 4), variables `?x`, `?y` with their sample
feeds (cell 23, feeds passed as parameters since they are drawn at
random), function `f(x,y) = x - y` (cell 8), predicate
`P(x) = exp(-‖x-μ‖)` (cell 12, with the backend's `exp` and norm
opaque), and a selectable pair of quantifier aggregators. -/
def notebookInterp {α : Type} [LinearOrderedField α] (pexp : α → α)
    (nrm : List α → α) (xs ys : List (List α)) (aggA aggE : List α → α) :
    Interp α where
  constVal := fun s => if s = "c" then cVec else if s = "d" then dVec else []
  varFeed := fun s => if s = "?x" then xs else if s = "?y" then ys else []
  funMap := fun s args =>
    if s = "f" then
      match args with
      | [x, y] => vsub x y
      | _ => []
    else []
  predMap := fun s args =>
    if s = "P" then
      match args with
      | [x] => Pdirect pexp nrm x
      | _ => 0
    else 0
  aggAll := aggA
  aggEx := aggE

/-- Satisfaction value of `P(c)` recorded by the notebook (cell 14:
`array([0.9048375], dtype=float32)`). -/
def nbPc : ℚ := 9048375 / 10000000

/-- Satisfaction value of `P(d)` recorded by the notebook (cell 15:
`array([0.12849975], dtype=float32)`). -/
def nbPd : ℚ := 12849975 / 100000000

/-- Satisfaction value of `P(f(c,d))` recorded by the notebook
(cell 16: `array([0.02665139], dtype=float32)`). -/
def nbPfcd : ℚ := 2665139 / 100000000

/-- Satisfaction value of `~P(c)` recorded by the notebook (cell 18:
`array([0.09516251], dtype=float32)`). -/
def nbNotPc : ℚ := 9516251 / 100000000

/-- Satisfaction value of `P(c)&P(d)` recorded by the notebook
(cell 19: `array([0.03333712], dtype=float32)`). -/
def nbAndOut : ℚ := 3333712 / 100000000

/-- Satisfaction value of `P(c)|P(d)` recorded by the notebook
(cell 20: `array([1.], dtype=float32)`). -/
def nbOrOut : ℚ := 1

/-- Satisfaction value of `~P(f(c,d))->P(d)` recorded by the notebook
(cell 21: `array([0.15515113], dtype=float32)`). -/
def nbImpOut : ℚ := 15515113 / 100000000

/-- Satisfaction value of `forall ?x: P(?x)` recorded by the notebook
(cell 30: `array([0.11074361], dtype=float32)`). -/
def nbForallOut : ℚ := 11074361 / 100000000

/-- Satisfaction value of `exists ?x: P(?x)` recorded by the notebook
(cell 32: `array([0.8691504], dtype=float32)`). -/
def nbExistsOut : ℚ := 8691504 / 10000000

mutual
/-- Every function application inside a term has exactly its declared
arity (spec.md §4.2: arities are validated against the symbol table
during parsing). -/
inductive TermArityOK (tbl : SymTable) : Term → Prop
  | const (n : String) : TermArityOK tbl (.const n)
  | var (n : String) : TermArityOK tbl (.var n)
  | app (n : String) (a : Nat) (args : TermArgs) :
      tbl.kindOf n = some (.funcK a) → args.len = a →
      ArgsArityOK tbl args → TermArityOK tbl (.app n args)
/-- Arity correctness for every term of an argument list. -/
inductive ArgsArityOK (tbl : SymTable) : TermArgs → Prop
  | single (t : Term) : TermArityOK tbl t → ArgsArityOK tbl (.single t)
  | cons (t : Term) (r : TermArgs) :
      TermArityOK tbl t → ArgsArityOK tbl r → ArgsArityOK tbl (.cons t r)
end

/-- Arity correctness is preserved by argument-list concatenation. -/
theorem ArgsArityOK.append_ok {tbl : SymTable} :
    ∀ {a b : TermArgs}, ArgsArityOK tbl a → ArgsArityOK tbl b →
      ArgsArityOK tbl (a.append b)
  | .single t, b, ha, hb => by
    cases ha with
    | single _ ht => exact .cons t b ht hb
  | .cons t r, b, ha, hb => by
    cases ha with
    | cons _ _ ht hr => exact .cons t (r.append b) ht (append_ok hr hb)

/-- Soundness of the term parser with respect to arity checking: any
argument list it returns contains only terms whose applications match
their declared arities. -/
theorem parseTermAux_sound (tbl : SymTable) :
    ∀ (fuel : Nat) (mode : Bool) (toks : List Tok) (out : TermArgs × List Tok),
      parseTermAux tbl fuel mode toks = .ok out → ArgsArityOK tbl out.1 := by
  intro fuel
  induction fuel with
  | zero => intro mode toks out h; simp [parseTermAux] at h
  | succ n ih =>
    intro mode toks out h
    cases mode with
    | false =>
      simp only [parseTermAux] at h
      split at h
      case _ s rest =>
        split at h
        case _ a heqk =>
          split at h
          case _ rest2 =>
            split at h
            case _ args rest3 heqp =>
              split at h
              · cases h
                rename_i hlen
                exact .single _ (.app s a args heqk hlen (ih true rest2 _ heqp))
              · exact absurd h (by simp)
            case _ e heqp => exact absurd h (by simp)
          case _ => exact absurd h (by simp)
        case _ heqk => cases h; exact .single _ (.const s)
        case _ heqk => cases h; exact .single _ (.var s)
        case _ a heqk => exact absurd h (by simp)
        case _ heqk => exact absurd h (by simp)
      case _ => exact absurd h (by simp)
    | true =>
      simp only [parseTermAux] at h
      split at h
      case _ ts rest heq1 =>
        split at h
        case _ rest2 =>
          split at h
          case _ ts2 rest3 heq2 =>
            cases h
            exact (ih false toks _ heq1).append_ok (ih true rest2 _ heq2)
          case _ e heq2 => exact absurd h (by simp)
        case _ rest2 =>
          cases h
          have h2 := ih false toks _ heq1
          exact h2
        case _ => exact absurd h (by simp)
      case _ e heq1 => exact absurd h (by simp)

/-- Every predicate and function application inside a formula has
exactly its declared arity. -/
inductive FormulaArityOK (tbl : SymTable) : Formula → Prop
  | pred (n : String) (a : Nat) (args : TermArgs) :
      tbl.kindOf n = some (.predK a) → args.len = a →
      ArgsArityOK tbl args → FormulaArityOK tbl (.pred n args)
  | not (f : Formula) : FormulaArityOK tbl f → FormulaArityOK tbl (.not f)
  | and (f g : Formula) : FormulaArityOK tbl f → FormulaArityOK tbl g →
      FormulaArityOK tbl (.and f g)
  | or (f g : Formula) : FormulaArityOK tbl f → FormulaArityOK tbl g →
      FormulaArityOK tbl (.or f g)
  | imp (f g : Formula) : FormulaArityOK tbl f → FormulaArityOK tbl g →
      FormulaArityOK tbl (.imp f g)
  | forallF (v : String) (f : Formula) : FormulaArityOK tbl f →
      FormulaArityOK tbl (.forallF v f)
  | existsF (v : String) (f : Formula) : FormulaArityOK tbl f →
      FormulaArityOK tbl (.existsF v f)

/-- Soundness of the formula parser with respect to arity checking:
whenever it succeeds, every application in the returned AST matches its
declared arity (assuming the accumulated left operand, if any, already
does). -/
theorem parseFormulaAux_sound (tbl : SymTable) :
    ∀ (fuel lvl : Nat) (acc : Option Formula) (toks : List Tok)
      (out : Formula × List Tok),
      (∀ f, acc = some f → FormulaArityOK tbl f) →
      parseFormulaAux tbl fuel lvl acc toks = .ok out →
      FormulaArityOK tbl out.1 := by
  intro fuel
  induction fuel with
  | zero => intro lvl acc toks out hacc h; simp [parseFormulaAux] at h
  | succ n ih =>
    intro lvl acc toks out hacc h
    rcases lvl with _ | _ | _ | _ | _ | _ | lvl
    · -- level 0: quantified or implication
      simp only [parseFormulaAux] at h
      split at h
      case _ q v rest =>
        split at h
        · -- quantifier keyword
          split at h
          case _ heqk =>
            split at h
            case _ f r heqr =>
              cases h
              have hf := ih 0 none rest (f, r) (by simp) heqr
              rename_i hq
              split
              · exact .forallF v f hf
              · exact .existsF v f hf
            case _ e heqr => exact absurd h (by simp)
          case _ k heqk => exact absurd h (by simp)
          case _ heqk => exact absurd h (by simp)
        · exact ih 1 none _ out (by simp) h
      case _ => exact ih 1 none toks out (by simp) h
    · -- level 1: implication
      simp only [parseFormulaAux] at h
      split at h
      case _ f r heq1 =>
        have hf := ih 2 none toks (f, r) (by simp) heq1
        split at h
        case _ r2 =>
          split at h
          case _ g r3 heq2 =>
            cases h
            exact .imp f g hf (ih 2 none r2 (g, r3) (by simp) heq2)
          case _ e heq2 => exact absurd h (by simp)
        case _ => cases h; exact hf
      case _ e heq1 => exact absurd h (by simp)
    · -- level 2: disjunction
      cases acc with
      | none =>
        simp only [parseFormulaAux] at h
        split at h
        case _ f r heq1 =>
          exact ih 2 (some f) r out
            (fun g hg => by cases hg; exact ih 3 none toks (f, r) (by simp) heq1) h
        case _ e heq1 => exact absurd h (by simp)
      | some f =>
        have hf := hacc f rfl
        simp only [parseFormulaAux] at h
        split at h
        case _ r2 =>
          split at h
          case _ g r3 heq2 =>
            exact ih 2 (some (.or f g)) r3 out
              (fun g2 hg2 => by
                cases hg2
                exact .or f g hf (ih 3 none r2 (g, r3) (by simp) heq2)) h
          case _ e heq2 => exact absurd h (by simp)
        case _ => cases h; exact hf
    · -- level 3: conjunction
      cases acc with
      | none =>
        simp only [parseFormulaAux] at h
        split at h
        case _ f r heq1 =>
          exact ih 3 (some f) r out
            (fun g hg => by cases hg; exact ih 4 none toks (f, r) (by simp) heq1) h
        case _ e heq1 => exact absurd h (by simp)
      | some f =>
        have hf := hacc f rfl
        simp only [parseFormulaAux] at h
        split at h
        case _ r2 =>
          split at h
          case _ g r3 heq2 =>
            exact ih 3 (some (.and f g)) r3 out
              (fun g2 hg2 => by
                cases hg2
                exact .and f g hf (ih 4 none r2 (g, r3) (by simp) heq2)) h
          case _ e heq2 => exact absurd h (by simp)
        case _ => cases h; exact hf
    · -- level 4: negation
      simp only [parseFormulaAux] at h
      split at h
      case _ r =>
        split at h
        case _ f r2 heq =>
          cases h
          exact .not f (ih 5 none r (f, r2) (by simp) heq)
        case _ e heq => exact absurd h (by simp)
      case _ => exact ih 5 none toks out (by simp) h
    · -- level 5: atom
      simp only [parseFormulaAux] at h
      split at h
      case _ r =>
        split at h
        case _ f r2 heq =>
          split at h
          case _ r3 =>
            cases h
            have hf := ih 0 none r _ (by simp) heq
            exact hf
          case _ => exact absurd h (by simp)
        case _ e heq => exact absurd h (by simp)
      case _ s r =>
        split at h
        case _ a heqk =>
          split at h
          case _ r2 =>
            split at h
            case _ args r3 heqp =>
              split at h
              · cases h
                rename_i hlen
                exact .pred s a args heqk hlen (parseTermAux_sound tbl n true r2 _ heqp)
              · exact absurd h (by simp)
            case _ e heqp => exact absurd h (by simp)
          case _ => exact absurd h (by simp)
        case _ k heqk => exact absurd h (by simp)
        case _ heqk => exact absurd h (by simp)
      case _ => exact absurd h (by simp)
    · -- level ≥ 6
      simp [parseFormulaAux] at h

/-- Soundness of `parse` with respect to arity checking: a successfully
parsed formula contains no application whose argument count differs from
the declared arity.  Together with the error cases this shows arity
mismatches are caught at parse time and no partial AST escapes. -/
theorem parse_sound (tbl : SymTable) (s : String) (φ : Formula)
    (h : parse tbl s = .ok φ) : FormulaArityOK tbl φ := by
  simp only [parse] at h
  split at h
  · exact absurd h (by simp)
  · rename_i toks heqt
    split at h
    · rename_i f heqp
      cases h
      exact parseFormulaAux_sound tbl (8 * toks.length + 8) 0 none toks
        (φ, []) (by simp) heqp
    · exact absurd h (by simp)
    · exact absurd h (by simp)

/-- Arithmetic mean of a list of reals. -/
noncomputable def listMean (l : List ℝ) : ℝ := l.sum / l.length

/-- Generalized p-mean `(mean(aᵢ^p))^(1/p)` over a list of reals
(spec.md §4.5), with real exponent. -/
noncomputable def pMean (p : ℝ) (l : List ℝ) : ℝ :=
  ((l.map (fun a => a ^ p)).sum / l.length) ^ (1 / p)

/-- Existential aggregator: the direct generalized p-mean, which for
`p → ∞` approximates the maximum.  Modelled from the spec (spec.md §4.5,
which requires `Exists ≥ max` in the `p → ∞` limit): the wrapper's
aggregator code is not in `src/`. -/
noncomputable def aggExistsPM (p : ℝ) (l : List ℝ) : ℝ := pMean p l

/-- Universal aggregator: the complementary generalized p-mean
`1 - pMean p (1 - aᵢ)`, which for `p → ∞` approximates the minimum.
Modelled from the spec (spec.md §4.5, which requires `ForAll ≤ min` in
the `p → ∞` limit): the wrapper's aggregator code is not in `src/`. -/
noncomputable def aggForallPM (p : ℝ) (l : List ℝ) : ℝ :=
  1 - pMean p (l.map (fun a => 1 - a))

/-- The notebook interpretation with the p-mean aggregator pair
installed as the quantifier semantics. -/
noncomputable def withPMean (I : Interp ℝ) (p : ℝ) : Interp ℝ :=
  { I with aggAll := aggForallPM p, aggEx := aggExistsPM p }

/-- List sum of a mapped list as a `Finset.range` sum over positions. -/
theorem sum_map_eq_sum_range (g : ℝ → ℝ) (l : List ℝ) :
    (l.map g).sum = ∑ i in Finset.range l.length, g (l.getD i 0) := by
  induction l with
  | nil => simp
  | cons a t ih =>
    rw [List.map_cons, List.sum_cons, List.length_cons, Finset.sum_range_succ']
    simp only [List.getD_cons_succ, List.getD_cons_zero]
    rw [← ih]
    ring

/-- Positional access with default 0 is nonnegative on a nonnegative
list. -/
theorem getD_nonneg {l : List ℝ} (h : ∀ a ∈ l, 0 ≤ a) (i : Nat) :
    0 ≤ l.getD i 0 := by
  by_cases hi : i < l.length
  · rw [List.getD_eq_getElem l 0 hi]; exact h _ (l.getElem_mem hi)
  · rw [List.getD_eq_default l 0 (by omega)]

/-- Power-mean inequality specialized to lists: the arithmetic mean is
at most the generalized p-mean for `p ≥ 1` on nonnegative values. -/
theorem listMean_le_pMean (p : ℝ) (hp : 1 ≤ p) (l : List ℝ) (hne : l ≠ [])
    (h0 : ∀ a ∈ l, 0 ≤ a) : listMean l ≤ pMean p l := by
  have hlen : 0 < l.length := List.length_pos.mpr hne
  have hlenR : (0 : ℝ) < l.length := by exact_mod_cast hlen
  have key := Real.arith_mean_le_rpow_mean (Finset.range l.length)
    (fun _ => ((l.length : ℝ))⁻¹) (fun i => l.getD i 0)
    (fun i _ => by positivity)
    (by
      rw [Finset.sum_const, Finset.card_range, nsmul_eq_mul]
      field_simp)
    (fun i _ => getD_nonneg h0 i) hp
  have h1 : ∑ i in Finset.range l.length, ((l.length : ℝ))⁻¹ * l.getD i 0
      = l.sum / l.length := by
    rw [← Finset.mul_sum]
    have hs : ∑ i in Finset.range l.length, l.getD i 0 = l.sum := by
      have := sum_map_eq_sum_range id l
      simpa using this.symm
    rw [hs, div_eq_mul_inv]
    ring
  have h2 : ∑ i in Finset.range l.length, ((l.length : ℝ))⁻¹ * l.getD i 0 ^ p
      = (l.map (fun a => a ^ p)).sum / l.length := by
    rw [← Finset.mul_sum, sum_map_eq_sum_range (fun a => a ^ p) l, div_eq_mul_inv]
    ring
  rw [listMean, pMean, ← h1, ← h2]
  exact key

/-- Sum of the pointwise complements of a list. -/
theorem map_one_sub_sum (l : List ℝ) :
    (l.map (fun a => 1 - a)).sum = l.length - l.sum := by
  induction l with
  | nil => simp
  | cons a t ih =>
    rw [List.map_cons, List.sum_cons, List.sum_cons, List.length_cons, ih]
    push_cast
    ring

/-- Mean of the pointwise complements is the complement of the mean. -/
theorem listMean_one_sub (l : List ℝ) (hne : l ≠ []) :
    listMean (l.map (fun a => 1 - a)) = 1 - listMean l := by
  have hlen : 0 < l.length := List.length_pos.mpr hne
  have hlenR : (0 : ℝ) < l.length := by exact_mod_cast hlen
  rw [listMean, listMean, List.length_map, map_one_sub_sum]
  field_simp

/-- The universal p-mean aggregate never exceeds the existential one on
a nonempty list of truth degrees in `[0,1]`, for any exponent `p ≥ 1`. -/
theorem aggForallPM_le_aggExistsPM (p : ℝ) (hp : 1 ≤ p) (l : List ℝ)
    (hne : l ≠ []) (h01 : ∀ a ∈ l, 0 ≤ a ∧ a ≤ 1) :
    aggForallPM p l ≤ aggExistsPM p l := by
  have hmapne : l.map (fun a => 1 - a) ≠ [] := by simpa using hne
  have h1 : listMean (l.map fun a => 1 - a) ≤ pMean p (l.map fun a => 1 - a) := by
    refine listMean_le_pMean p hp _ hmapne ?_
    intro b hb
    simp only [List.mem_map] at hb
    obtain ⟨a, ha, rfl⟩ := hb
    linarith [(h01 a ha).2]
  have h2 : listMean l ≤ pMean p l :=
    listMean_le_pMean p hp l hne (fun a ha => (h01 a ha).1)
  have h3 : listMean (l.map fun a => 1 - a) = 1 - listMean l :=
    listMean_one_sub l hne
  rw [aggForallPM, aggExistsPM]
  have h4 : 1 - pMean p (l.map fun a => 1 - a) ≤ listMean l := by
    have := h3 ▸ h1
    linarith
  linarith

/-- Registration of a constant (spec.md §4.1 `register_constant`,
notebook cell 4 `ltnw.constant`): functional update of the
interpretation's constant grounding. -/
def registerConstant {α : Type} (I : Interp α) (name : String) (v : List α) :
    Interp α :=
  { I with constVal := fun s => if s = name then v else I.constVal s }

/-- Numeric input parameter of the notebook's function registration call
(cell 8: `ltnw.function("f",4,2,...)`). -/
def fRegInputParam : Nat := 4

/-- Numeric output parameter of the notebook's function registration
call (cell 8: `ltnw.function("f",4,2,...)`). -/
def fRegOutputParam : Nat := 2

/-- Numeric parameter of the notebook's predicate registration call
(cell 12: `ltnw.predicate("P",2,...)`). -/
def pRegInputParam : Nat := 2

/-- Feature dimension k of the notebook's domain: the registered
constants live in ℝ² (cell 4). -/
def domainDim : Nat := 2

/-- C1: with constants `c = [2.1, 3.0]` and `d = [3.4, 1.5]`, function
`f(x,y) = x - y` and predicate `P(x) = exp(-‖x-[2,3]‖)` registered,
evaluating the formula string `"P(f(c,d))"` returns exactly the directly
computed value `P(f(c,d)) = exp(-‖(c-d)-[2,3]‖)` — for any backend `exp`
and norm, the engine's answer is the direct composition (so it agrees
within any floating-point tolerance); the notebook's recorded output
0.02665139 matches the claim's quoted `≈ 0.0267`. -/
theorem c1_ground_formula_value (pexp : ℚ → ℚ) (nrm : List ℚ → ℚ)
    (xs ys : List (List ℚ)) (aggA aggE : List ℚ → ℚ) :
    askVal0 notebookTable (notebookInterp pexp nrm xs ys aggA aggE) "P(f(c,d))"
      = .ok (Pdirect pexp nrm (vsub cVec dVec))
    ∧ |nbPfcd - 267 / 10000| < 1 / 10000 := by
  refine ⟨rfl, ?_⟩
  rw [abs_lt]
  constructor <;> norm_num [nbPfcd]

/-- C2 counterexample: the recorded outputs of the notebook's default
connectives are far outside floating-point tolerance of the product
t-norm values: `P(c)&P(d)` was 0.03333712 but the product t-norm value
`P(c)·P(d)` is ≈ 0.1163 (off by more than 1/100), and `P(c)|P(d)` was
1.0 but the probabilistic-sum value is ≈ 0.917 (off by more than
1/20). -/
theorem c2_counterexample :
    1 / 100 < |prodAnd nbPc nbPd - nbAndOut|
    ∧ 1 / 20 < |prodOr nbPc nbPd - nbOrOut| := by
  constructor
  · rw [lt_abs]; left; norm_num [prodAnd, nbPc, nbPd, nbAndOut]
  · rw [lt_abs]; right; norm_num [prodOr, nbPc, nbPd, nbOrOut]

/-- C2 amended: the default connective semantics is the Łukasiewicz
t-norm — AND(a,b) = max(a+b-1,0) and OR(a,b) = min(a+b,1) (elementwise
in the engine) — and on the recorded inputs `P(c) = 0.9048375`,
`P(d) = 0.12849975` these reproduce the notebook's recorded outputs:
`P(c)&P(d) = 0.03333712` within 10⁻⁶ and `P(c)|P(d) = 1.0` exactly. -/
theorem c2_lukasiewicz_default (I : Interp ℚ) (f g : Formula)
    (σ : String → Nat) :
    evalFormula I (.and f g) σ
      = max (evalFormula I f σ + evalFormula I g σ - 1) 0
    ∧ evalFormula I (.or f g) σ
      = min (evalFormula I f σ + evalFormula I g σ) 1
    ∧ |lukAnd nbPc nbPd - nbAndOut| ≤ 1 / 1000000
    ∧ lukOr nbPc nbPd = nbOrOut := by
  refine ⟨rfl, rfl, ?_, ?_⟩
  · rw [abs_le]; constructor <;> norm_num [lukAnd, nbPc, nbPd, nbAndOut]
  · norm_num [lukOr, nbPc, nbPd, nbOrOut]

/-- C3: the IMPLIES connective is the residuum `clip(1-a+b,0,1)` — one
of the two residua documented by the spec — applied uniformly by the
engine to every implication, and NOT is `1-a`; on the recorded inputs,
with `a = 1 - P(f(c,d)) = 1 - 0.02665139` and `b = P(d) = 0.12849975`,
this residuum reproduces the recorded output
`~P(f(c,d))->P(d) = 0.15515113` within 10⁻⁶, while the other documented
residuum (`1 if a ≤ b else 1-a+a·b`) misses it by more than 1/1000;
the recorded `~P(c) = 0.09516251` likewise matches `1 - P(c)`. -/
theorem c3_residuum_is_clip :
    (∀ (I : Interp ℚ) (f g : Formula) (σ : String → Nat),
        evalFormula I (.imp f g) σ
          = min (max (1 - evalFormula I f σ + evalFormula I g σ) 0) 1
        ∧ evalFormula I (.not f) σ = 1 - evalFormula I f σ)
    ∧ |lukImp (1 - nbPfcd) nbPd - nbImpOut| ≤ 1 / 1000000
    ∧ 1 / 1000 < |gogImp (1 - nbPfcd) nbPd - nbImpOut|
    ∧ |(1 - nbPc) - nbNotPc| ≤ 1 / 1000000 := by
  refine ⟨fun I f g σ => ⟨rfl, rfl⟩, ?_, ?_, ?_⟩
  · rw [abs_le]; constructor <;> norm_num [lukImp, nbPfcd, nbPd, nbImpOut]
  · rw [lt_abs]; right; norm_num [gogImp, nbPfcd, nbPd, nbImpOut]
  · rw [abs_le]; constructor <;> norm_num [nbPc, nbNotPc]

/-- C4: with `?x` and `?y` independently registered with 100 samples
each, `ask("P(f(?x,?y))")` has leading shape (100, 100) in order of
first lexical appearance (`?x` before `?y`) plus the trailing value
axis, i.e. result shape (100, 100, 1), and the axis binding is
`["?x", "?y"]`. -/
theorem c4_two_variable_shape (pexp : ℚ → ℚ) (nrm : List ℚ → ℚ)
    (xs ys : List (List ℚ)) (aggA aggE : List ℚ → ℚ)
    (hx : xs.length = 100) (hy : ys.length = 100) :
    askShape notebookTable (notebookInterp pexp nrm xs ys aggA aggE)
      "P(f(?x,?y))" = .ok [100, 100, 1]
    ∧ askBinding notebookTable "P(f(?x,?y))" = .ok ["?x", "?y"] := by
  refine ⟨?_, rfl⟩
  have h : askShape notebookTable (notebookInterp pexp nrm xs ys aggA aggE)
      "P(f(?x,?y))" = .ok [xs.length, ys.length, 1] := rfl
  rw [h, hx, hy]

/-- Witness for C4 at concrete 100-sample feeds. -/
theorem c4_two_variable_shape_witness :
    (List.replicate 100 ([] : List ℚ)).length = 100
    ∧ (askShape notebookTable
        (notebookInterp (id : ℚ → ℚ) (fun _ => 0) (List.replicate 100 [])
          (List.replicate 100 []) (fun _ => 0) (fun _ => 0))
        "P(f(?x,?y))" = .ok [100, 100, 1]
      ∧ askBinding notebookTable "P(f(?x,?y))" = .ok ["?x", "?y"]) :=
  ⟨by simp,
    c4_two_variable_shape id (fun _ => 0) (List.replicate 100 [])
      (List.replicate 100 []) (fun _ => 0) (fun _ => 0) (by simp) (by simp)⟩

/-- C5: `ask("forall ?x: P(?x)")` removes `?x`'s axis relative to
`ask("P(?x)")`: the unquantified formula has binding `["?x"]` and shape
(100, 1) for a 100-sample feed, the quantified one has empty binding
and shape (1); quantifying `?x` away from a body with binding
`["?x", "?y"]` leaves `["?y"]`, preserving the order of remaining
variables. -/
theorem c5_forall_removes_axis (pexp : ℚ → ℚ) (nrm : List ℚ → ℚ)
    (xs ys : List (List ℚ)) (aggA aggE : List ℚ → ℚ)
    (hx : xs.length = 100) :
    askShape notebookTable (notebookInterp pexp nrm xs ys aggA aggE)
      "P(?x)" = .ok [100, 1]
    ∧ askShape notebookTable (notebookInterp pexp nrm xs ys aggA aggE)
      "forall ?x: P(?x)" = .ok [1]
    ∧ askBinding notebookTable "P(?x)" = .ok ["?x"]
    ∧ askBinding notebookTable "forall ?x: P(?x)" = .ok []
    ∧ askBinding notebookTable "forall ?x: P(f(?x,?y))" = .ok ["?y"] := by
  refine ⟨?_, rfl, rfl, rfl, rfl⟩
  have h : askShape notebookTable (notebookInterp pexp nrm xs ys aggA aggE)
      "P(?x)" = .ok [xs.length, 1] := rfl
  rw [h, hx]

/-- Witness for C5 at a concrete 100-sample feed. -/
theorem c5_forall_removes_axis_witness :
    (List.replicate 100 ([] : List ℚ)).length = 100
    ∧ (askShape notebookTable
        (notebookInterp (id : ℚ → ℚ) (fun _ => 0) (List.replicate 100 [])
          (List.replicate 100 []) (fun _ => 0) (fun _ => 0))
        "P(?x)" = .ok [100, 1]
      ∧ askShape notebookTable
        (notebookInterp (id : ℚ → ℚ) (fun _ => 0) (List.replicate 100 [])
          (List.replicate 100 []) (fun _ => 0) (fun _ => 0))
        "forall ?x: P(?x)" = .ok [1]
      ∧ askBinding notebookTable "P(?x)" = .ok ["?x"]
      ∧ askBinding notebookTable "forall ?x: P(?x)" = .ok []
      ∧ askBinding notebookTable "forall ?x: P(f(?x,?y))" = .ok ["?y"]) :=
  ⟨by simp,
    c5_forall_removes_axis id (fun _ => 0) (List.replicate 100 [])
      (List.replicate 100 []) (fun _ => 0) (fun _ => 0) (by simp)⟩

/-- C6: binary connectives combine axis bindings as the label-aligned
union — in general `compileBinding` of And/Or/Implies is `mergeVars` of
the operands' bindings — and concretely
`ask("P(f(?x,?y)) | ~P(?x)")` has binding `["?x", "?y"]` (the right
operand's single `?x` axis aligned by name into the left operand's
`(?x, ?y)` axes) and shape (100, 100, 1) for 100-sample feeds. -/
theorem c6_connective_binding_union (pexp : ℚ → ℚ) (nrm : List ℚ → ℚ)
    (xs ys : List (List ℚ)) (aggA aggE : List ℚ → ℚ)
    (hx : xs.length = 100) (hy : ys.length = 100) :
    (∀ (f g : Formula) (a b : List String),
        compileBinding f = .ok a → compileBinding g = .ok b →
        compileBinding (.and f g) = .ok (mergeVars a b)
        ∧ compileBinding (.or f g) = .ok (mergeVars a b)
        ∧ compileBinding (.imp f g) = .ok (mergeVars a b))
    ∧ askShape notebookTable (notebookInterp pexp nrm xs ys aggA aggE)
        "P(f(?x,?y)) | ~P(?x)" = .ok [100, 100, 1]
    ∧ askBinding notebookTable "P(f(?x,?y)) | ~P(?x)" = .ok ["?x", "?y"]
    ∧ askBinding notebookTable "P(f(?x,?y))" = .ok ["?x", "?y"]
    ∧ askBinding notebookTable "~P(?x)" = .ok ["?x"]
    ∧ mergeVars ["?x", "?y"] ["?x"] = ["?x", "?y"] := by
  refine ⟨?_, ?_, rfl, rfl, rfl, rfl⟩
  · intro f g a b h1 h2
    refine ⟨?_, ?_, ?_⟩ <;> simp [compileBinding, h1, h2]
  · have h : askShape notebookTable (notebookInterp pexp nrm xs ys aggA aggE)
        "P(f(?x,?y)) | ~P(?x)" = .ok [xs.length, ys.length, 1] := rfl
    rw [h, hx, hy]

/-- Witness for C6 at concrete 100-sample feeds. -/
theorem c6_connective_binding_union_witness :
    (List.replicate 100 ([] : List ℚ)).length = 100
    ∧ ((∀ (f g : Formula) (a b : List String),
        compileBinding f = .ok a → compileBinding g = .ok b →
        compileBinding (.and f g) = .ok (mergeVars a b)
        ∧ compileBinding (.or f g) = .ok (mergeVars a b)
        ∧ compileBinding (.imp f g) = .ok (mergeVars a b))
      ∧ askShape notebookTable
          (notebookInterp (id : ℚ → ℚ) (fun _ => 0) (List.replicate 100 [])
            (List.replicate 100 []) (fun _ => 0) (fun _ => 0))
          "P(f(?x,?y)) | ~P(?x)" = .ok [100, 100, 1]
      ∧ askBinding notebookTable "P(f(?x,?y)) | ~P(?x)" = .ok ["?x", "?y"]
      ∧ askBinding notebookTable "P(f(?x,?y))" = .ok ["?x", "?y"]
      ∧ askBinding notebookTable "~P(?x)" = .ok ["?x"]
      ∧ mergeVars ["?x", "?y"] ["?x"] = ["?x", "?y"]) :=
  ⟨by simp,
    c6_connective_binding_union id (fun _ => 0) (List.replicate 100 [])
      (List.replicate 100 []) (fun _ => 0) (fun _ => 0) (by simp) (by simp)⟩

/-- C7 counterexample: the numeric count parameters of the notebook's
registration calls are NOT the symbols' arities: `f` has arity 2 in the
symbol table but is registered with input parameter 4, and `P` has
arity 1 but is registered with parameter 2. -/
theorem c7_counterexample :
    notebookTable.kindOf "f" = some (.funcK 2) ∧ fRegInputParam ≠ 2
    ∧ notebookTable.kindOf "P" = some (.predK 1) ∧ pRegInputParam ≠ 1 := by
  refine ⟨rfl, by decide, rfl, by decide⟩

/-- C7 amended: the numeric count parameter of each registration call
is the symbol's total input feature dimension `arity · k` (with `k = 2`
the domain's feature dimension), and the second numeric parameter of a
function registration is its output feature dimension: `f` (arity 2) is
registered with `4 = 2·2` in and `2` out, `P` (arity 1) with
`2 = 1·2`. -/
theorem c7_feature_dimension_params :
    fRegInputParam = 2 * domainDim
    ∧ pRegInputParam = 1 * domainDim
    ∧ fRegOutputParam = domainDim
    ∧ (cVec : List ℚ).length = domainDim
    ∧ (dVec : List ℚ).length = domainDim
    ∧ notebookTable.kindOf "f" = some (.funcK 2)
    ∧ notebookTable.kindOf "P" = some (.predK 1) := by
  refine ⟨rfl, rfl, rfl, rfl, rfl, rfl, rfl⟩

/-- C8: argument-count mismatches are caught during parsing — every
formula an arbitrary table's parse returns is arity-correct (no partial
AST with a mismatched application ever escapes), and concretely the
wrong-arity strings `P(c,d)` and `P(f(c,d,c))` fail at parse time with
`ArityMismatchError` (so no compilation or evaluation can occur). -/
theorem c8_arity_mismatch_at_parse :
    (∀ (tbl : SymTable) (s : String) (φ : Formula),
        parse tbl s = .ok φ → FormulaArityOK tbl φ)
    ∧ parse notebookTable "P(c,d)" = .error (.arityMismatch "P" 1 2)
    ∧ parse notebookTable "P(f(c,d,c))" = .error (.arityMismatch "f" 2 3) :=
  ⟨parse_sound, rfl, rfl⟩

/-- Witness for C8: the arity-soundness component applied to the
concrete successful parse of `P(c)`. -/
theorem c8_arity_mismatch_at_parse_witness :
    FormulaArityOK notebookTable (.pred "P" (.single (.const "c"))) :=
  c8_arity_mismatch_at_parse.1 notebookTable "P(c)"
    (.pred "P" (.single (.const "c"))) rfl

/-- C9: with the p-mean aggregator pair (any exponent `p ≥ 1`), for
every formula body whose values lie in `[0,1]` and every variable with
a nonempty feed, the existential aggregate dominates the universal one
at every remaining index combination; the notebook's recorded values
(exists ≈ 0.8691504, forall ≈ 0.11074361) are so ordered. -/
theorem c9_exists_dominates_forall (I : Interp ℝ) (p : ℝ) (φ : Formula)
    (v : String) (σ : String → Nat) (hp : 1 ≤ p)
    (hne : I.varFeed v ≠ [])
    (hvals : ∀ σ' : String → Nat,
        0 ≤ evalFormula (withPMean I p) φ σ'
        ∧ evalFormula (withPMean I p) φ σ' ≤ 1) :
    evalFormula (withPMean I p) (.forallF v φ) σ
      ≤ evalFormula (withPMean I p) (.existsF v φ) σ
    ∧ nbForallOut ≤ nbExistsOut := by
  constructor
  · show aggForallPM p _ ≤ aggExistsPM p _
    apply aggForallPM_le_aggExistsPM p hp
    · have hn : (withPMean I p).varFeed v ≠ [] := hne
      simp only [ne_eq, List.map_eq_nil_iff, List.range_eq_nil]
      intro hlen
      exact hn (List.length_eq_zero.mp hlen)
    · intro b hb
      simp only [List.mem_map, List.mem_range] at hb
      obtain ⟨i, _, rfl⟩ := hb
      exact hvals (updEnv σ v i)
  · norm_num [nbForallOut, nbExistsOut]

/-- Interpretation used to witness C9: one-sample feed for every
variable and a predicate constantly equal to 1/2. -/
noncomputable def c9Interp : Interp ℝ where
  constVal := fun _ => []
  varFeed := fun _ => [[0]]
  funMap := fun _ _ => []
  predMap := fun _ _ => 1 / 2
  aggAll := fun _ => 0
  aggEx := fun _ => 0

/-- Witness for C9 at `p = 1`, a one-sample variable and the constant
predicate 1/2. -/
theorem c9_exists_dominates_forall_witness :
    (evalFormula (withPMean c9Interp 1)
        (.forallF "?x" (.pred "Q" (.single (.var "?x")))) (fun _ => 0)
      ≤ evalFormula (withPMean c9Interp 1)
        (.existsF "?x" (.pred "Q" (.single (.var "?x")))) (fun _ => 0))
    ∧ nbForallOut ≤ nbExistsOut :=
  c9_exists_dominates_forall c9Interp 1 (.pred "Q" (.single (.var "?x")))
    "?x" (fun _ => 0) le_rfl (by simp [c9Interp])
    (fun σ' => by norm_num [evalFormula, withPMean, c9Interp])

/-- C10: registering a constant and then looking it up round-trips with
no transformation of the stored value: for every interpretation, name
and vector, evaluating the constant reference after registration yields
exactly the registered vector; concretely the notebook's
`ltnw.constant("c").eval()` query returns exactly the registered
`[2.1, 3.0]`. -/
theorem c10_constant_roundtrip (I : Interp ℚ) (name : String) (v : List ℚ)
    (σ : String → Nat) (pexp : ℚ → ℚ) (nrm : List ℚ → ℚ)
    (xs ys : List (List ℚ)) (aggA aggE : List ℚ → ℚ) :
    evalTerm (registerConstant I name v) σ (.const name) = v
    ∧ termVal0 notebookTable (notebookInterp pexp nrm xs ys aggA aggE) "c"
        = .ok cVec
    ∧ (cVec : List ℚ) = [21 / 10, 3] := by
  refine ⟨?_, rfl, rfl⟩
  simp [evalTerm, registerConstant]
